import Mathlib

/-!
Shallow embedding of the synclaude Configuration & Cache Store core
(`src/config/manager.ts`, `src/config/types.ts`, `src/models/types.ts`,
the model cache/manager and `ModelInfoImpl`), together with theorems
settling the spec claims about it.

JS strings are modelled as `List Char` (`JStr`) where character-level
operations matter, and as Lean `String` elsewhere.  JSON numbers are
modelled as `Int` (every number the schemas constrain is an integer).
-/

namespace Synclaude

/-! ## JS string primitives -/

/-- JS strings, as lists of their characters. -/
abbrev JStr := List Char

/-- `String.prototype.split(sep)`: splits at every occurrence of `sep`;
the result always has at least one element ( `"".split(x)` is `[""]` ). -/
def splitOnAll (sep : Char) : JStr → List JStr
  | [] => [[]]
  | c :: cs =>
    if c = sep then [] :: splitOnAll sep cs
    else
      match splitOnAll sep cs with
      | [] => [[c]]
      | g :: gs => (c :: g) :: gs

/-- `String.prototype.split(sep, limit)`: JS splits at every occurrence and
then truncates the result array to `limit` elements (it does not stop
splitting after `limit - 1` separators). -/
def splitLimit (sep : Char) (limit : Nat) (s : JStr) : List JStr :=
  (splitOnAll sep s).take limit

/-- JS `x || d` on strings: the empty string is falsy. -/
def orElseStr (s d : JStr) : JStr := if s = [] then d else s

/-! ## `ModelInfoImpl.getProvider` / `getModelName` (`src/models/info.ts`) -/

/-- `getProvider()`: `id.includes(':') ? (id.split(':', 1)[0] || 'unknown') : 'unknown'`. -/
def getProvider (id : JStr) : JStr :=
  if ':' ∈ id then
    orElseStr ((splitLimit ':' 1 id).headD []) "unknown".data
  else "unknown".data

/-- `getModelName()`: `id.includes(':') ? (id.split(':', 2)[1] || id) : id`
(an out-of-range index reads as `undefined`, which `|| id` replaces). -/
def getModelName (id : JStr) : JStr :=
  if ':' ∈ id then
    match (splitLimit ':' 2 id)[1]? with
    | some seg => orElseStr seg id
    | none => id
  else id

/-! Structural lemmas about `splitOnAll`. -/

theorem splitOnAll_no_sep {sep : Char} {xs : JStr} (h : sep ∉ xs) :
    splitOnAll sep xs = [xs] := by
  induction xs with
  | nil => rfl
  | cons c cs ih =>
    have hc : c ≠ sep := fun hcs => h (hcs ▸ List.mem_cons_self c cs)
    have hcs : sep ∉ cs := fun hm => h (List.mem_cons_of_mem c hm)
    simp [splitOnAll, hc, ih hcs]

theorem splitOnAll_append {sep : Char} {xs : JStr} (ys : JStr) (h : sep ∉ xs) :
    splitOnAll sep (xs ++ sep :: ys) = xs :: splitOnAll sep ys := by
  induction xs with
  | nil => simp [splitOnAll]
  | cons c cs ih =>
    have hc : c ≠ sep := fun hcs => h (hcs ▸ List.mem_cons_self c cs)
    have hcs : sep ∉ cs := fun hm => h (List.mem_cons_of_mem c hm)
    simp only [List.cons_append, splitOnAll, if_neg hc]
    rw [show cs.append (sep :: ys) = cs ++ sep :: ys from rfl, ih hcs]

theorem getProvider_of_shape {p n : JStr} (hp : ':' ∉ p) (hpn : p ≠ []) :
    getProvider (p ++ ':' :: n) = p := by
  have hmem : ':' ∈ p ++ ':' :: n := List.mem_append_right p (List.mem_cons_self _ _)
  simp [getProvider, hmem, splitLimit, splitOnAll_append n hp, orElseStr, hpn]

theorem getModelName_one_colon {p n : JStr} (hp : ':' ∉ p) (hn : ':' ∉ n)
    (hne : n ≠ []) : getModelName (p ++ ':' :: n) = n := by
  have hmem : ':' ∈ p ++ ':' :: n := List.mem_append_right p (List.mem_cons_self _ _)
  simp [getModelName, hmem, splitLimit, splitOnAll_append n hp, splitOnAll_no_sep hn,
    orElseStr, hne]

theorem getModelName_two_colons {p n : JStr} (rest : JStr) (hp : ':' ∉ p)
    (hn : ':' ∉ n) (hne : n ≠ []) :
    getModelName (p ++ ':' :: (n ++ ':' :: rest)) = n := by
  have hmem : ':' ∈ p ++ ':' :: (n ++ ':' :: rest) :=
    List.mem_append_right p (List.mem_cons_self _ _)
  simp [getModelName, hmem, splitLimit, splitOnAll_append _ hp, splitOnAll_append _ hn,
    orElseStr, hne]

theorem getProvider_no_colon {id : JStr} (h : ':' ∉ id) :
    getProvider id = "unknown".data := by
  simp [getProvider, h]

theorem getModelName_no_colon {id : JStr} (h : ':' ∉ id) :
    getModelName id = id := by
  simp [getModelName, h]

/-- C2 (counterexample): the claim fails as stated.  For `id = ":b"` the
derived name is `"b"` (no further `:`), yet `provider(id) = "unknown"`
(the empty segment before the `:` is falsy and replaced), so the
reconstruction is `"unknown:b" ≠ ":b"`.  For `id = "a:b:c"` the derived
name is `"b"` (no further `:`), and the reconstruction is `"a:b" ≠ "a:b:c"`. -/
theorem getProvider_getModelName_roundtrip_fails :
    getProvider ":b".data = "unknown".data
    ∧ getModelName ":b".data = "b".data
    ∧ ':' ∉ getModelName ":b".data
    ∧ getProvider ":b".data ++ ':' :: getModelName ":b".data ≠ ":b".data
    ∧ getModelName "a:b:c".data = "b".data
    ∧ ':' ∉ getModelName "a:b:c".data
    ∧ getProvider "a:b:c".data ++ ':' :: getModelName "a:b:c".data ≠ "a:b:c".data := by
  decide

/-- C2 (amended): for every identifier of the form `p ++ ":" ++ n` with `p`
and `n` non-empty and neither containing `:` (so `id` contains exactly one
`:` and a non-empty segment on each side), `provider(id) ++ ":" ++ name(id)`
reconstructs `id` exactly; and for every identifier without `:`,
`provider(id) = "unknown"` and `name(id) = id`. -/
theorem getProvider_getModelName_roundtrip (p n id : JStr)
    (hp : ':' ∉ p) (hn : ':' ∉ n) (hpne : p ≠ []) (hnne : n ≠ []) (hid : ':' ∉ id) :
    getProvider (p ++ ':' :: n) = p
    ∧ getModelName (p ++ ':' :: n) = n
    ∧ getProvider (p ++ ':' :: n) ++ ':' :: getModelName (p ++ ':' :: n) = p ++ ':' :: n
    ∧ getProvider id = "unknown".data ∧ getModelName id = id := by
  refine ⟨getProvider_of_shape hp hpne, getModelName_one_colon hp hn hnne, ?_,
    getProvider_no_colon hid, getModelName_no_colon hid⟩
  rw [getProvider_of_shape hp hpne, getModelName_one_colon hp hn hnne]

/-- C2 (witness): the round-trip theorem applied at `p = "a"`, `n = "b"`,
`id = "x"`. -/
theorem getProvider_getModelName_roundtrip_example :
    getProvider "a:b".data ++ ':' :: getModelName "a:b".data = "a:b".data
    ∧ getProvider "x".data = "unknown".data ∧ getModelName "x".data = "x".data := by
  have h := getProvider_getModelName_roundtrip "a".data "b".data "x".data
    (by decide) (by decide) (by decide) (by decide) (by decide)
  have he : ("a:b".data : JStr) = "a".data ++ ':' :: "b".data := by decide
  exact ⟨by rw [he]; exact h.2.2.1, h.2.2.2.1, h.2.2.2.2⟩

/-- C3 (counterexample): the claim fails as stated.  JS
`"a:b:c".split(":", 2)` is `["a", "b"]` (the limit truncates the result
array, it does not stop the splitting), so `name("a:b:c") = "b"`, not the
claimed `"b:c"`. -/
theorem getModelName_truncates_at_second_colon :
    getModelName "a:b:c".data = "b".data
    ∧ getModelName "a:b:c".data ≠ "b:c".data := by
  decide

/-- Every list containing `:` splits as a colon-free prefix, the first
`:`, and the remainder. -/
theorem exists_split_first (id : JStr) (h : ':' ∈ id) :
    ∃ p t, ':' ∉ p ∧ id = p ++ ':' :: t := by
  induction id with
  | nil => cases h
  | cons c cs ih =>
    by_cases hc : c = ':'
    · exact ⟨[], cs, by simp, by simp [hc]⟩
    · have hcs : ':' ∈ cs := by
        rcases List.mem_cons.mp h with h1 | h1
        · exact absurd h1.symm hc
        · exact h1
      obtain ⟨p, t, hp, he⟩ := ih hcs
      refine ⟨c :: p, t, ?_, by rw [he]; rfl⟩
      intro hm
      rcases List.mem_cons.mp hm with h1 | h1
      · exact hc h1.symm
      · exact hp h1

/-- C3 (amended): for every identifier containing at least one `:`,
`name(id)` is the segment between the first `:` and the second `:` when
a second exists, and everything after the first `:` otherwise — the
split's limit truncates the result array, it does not stop the
splitting — except that when that segment is empty, `name` falls back
to the whole `id`.  The first two conjuncts settle the two shapes (the
segment `n` after the first `:` may be empty); the third shows every
identifier containing `:` takes exactly one of them, with `p` the
colon-free prefix before the first `:` and `n` the colon-free segment
following it. -/
theorem getModelName_after_first_colon :
    (∀ p n : JStr, ':' ∉ p → ':' ∉ n →
      getModelName (p ++ ':' :: n) = if n = [] then p ++ ':' :: n else n)
    ∧ (∀ p n rest : JStr, ':' ∉ p → ':' ∉ n →
      getModelName (p ++ ':' :: (n ++ ':' :: rest))
        = if n = [] then p ++ ':' :: (n ++ ':' :: rest) else n)
    ∧ (∀ id : JStr, ':' ∈ id → ∃ p n, ':' ∉ p ∧ ':' ∉ n ∧
        (id = p ++ ':' :: n ∨ ∃ rest, id = p ++ ':' :: (n ++ ':' :: rest))) := by
  refine ⟨?_, ?_, ?_⟩
  · intro p n hp hn
    by_cases hne : n = []
    · subst hne
      have hmem : ':' ∈ p ++ ':' :: ([] : JStr) :=
        List.mem_append_right p (List.mem_cons_self _ _)
      have hsplit : splitOnAll ':' (p ++ ':' :: ([] : JStr)) = [p, []] := by
        have := @splitOnAll_append ':' p [] hp
        simpa [splitOnAll] using this
      simp [getModelName, hmem, splitLimit, hsplit, orElseStr]
    · rw [if_neg hne]
      exact getModelName_one_colon hp hn hne
  · intro p n rest hp hn
    by_cases hne : n = []
    · subst hne
      simp only [List.nil_append]
      have hmem : ':' ∈ p ++ ':' :: ':' :: rest :=
        List.mem_append_right p (List.mem_cons_self _ _)
      have hsplit : splitOnAll ':' (p ++ ':' :: ':' :: rest)
          = p :: [] :: splitOnAll ':' rest := by
        rw [@splitOnAll_append ':' p (':' :: rest) hp]
        simp [splitOnAll]
      simp [getModelName, hmem, splitLimit, hsplit, orElseStr]
    · rw [if_neg hne]
      exact getModelName_two_colons rest hp hn hne
  · intro id h
    obtain ⟨p, t, hp, he⟩ := exists_split_first id h
    by_cases ht : ':' ∈ t
    · obtain ⟨n, rest, hn, he2⟩ := exists_split_first t ht
      exact ⟨p, n, hp, hn, Or.inr ⟨rest, by rw [he, he2]⟩⟩
    · exact ⟨p, t, hp, ht, Or.inl he⟩

/-- C3 (witness): the amended theorem applied at `"a:b:c"` (segment
`"b"` between the two colons), `"a:"` (empty segment, no second colon),
and `"a::c"` (empty segment before a second colon with content after);
the latter two fall back to the whole identifier. -/
theorem getModelName_after_first_colon_example :
    getModelName "a:b:c".data = "b".data
    ∧ getModelName "a:".data = "a:".data
    ∧ getModelName "a::c".data = "a::c".data := by
  have h := getModelName_after_first_colon
  have h1 := h.2.1 "a".data "b".data "c".data (by decide) (by decide)
  have h2 := h.1 "a".data [] (by decide) (by decide)
  have h3 := h.2.1 "a".data [] "c".data (by decide) (by decide)
  have e1 : ("a:b:c".data : JStr) = "a".data ++ ':' :: ("b".data ++ ':' :: "c".data) := by
    decide
  have e2 : ("a:".data : JStr) = "a".data ++ ':' :: [] := by decide
  have e3 : ("a::c".data : JStr) = "a".data ++ ':' :: ([] ++ ':' :: "c".data) := by decide
  refine ⟨?_, ?_, ?_⟩
  · rw [e1, h1]
    decide
  · rw [e2, h2]
    decide
  · rw [e3, h3]
    rw [if_pos rfl, ← e3]

/-! ## JSON values and JS object semantics -/

/-- A parsed JSON value (`JSON.parse` result).  Numbers are modelled as
integers: every number the schemas constrain is an integer. -/
inductive JValue where
  | str (s : String)
  | num (n : Int)
  | bool (b : Bool)
  | null
  | arr (elems : List JValue)
  | obj (fields : List (String × JValue))

/-- JS property read on an object built by `JSON.parse`: a duplicated key
keeps its last occurrence; a missing key reads as `undefined` (`none`). -/
def jsLookup (fields : List (String × JValue)) (key : String) : Option JValue :=
  fields.foldl (fun acc p => if p.1 = key then some p.2 else acc) none

/-- Outcome of a JS property access `v.key` on an arbitrary value:
on `null` it throws a `TypeError`; on a primitive or an array it reads as
`undefined`; on an object it looks the key up. -/
inductive JSAccess where
  | threw
  | value (v : Option JValue)

def jsGetProp (v : JValue) (key : String) : JSAccess :=
  match v with
  | .null => .threw
  | .obj fs => .value (jsLookup fs key)
  | _ => .value none

/-- JS truthiness of a value (`undefined` is handled by callers). -/
def jsTruthy : JValue → Bool
  | .str s => decide (s ≠ "")
  | .num n => decide (n ≠ 0)
  | .bool b => b
  | .null => false
  | .arr _ => true
  | .obj _ => true

/-! ## `ModelInfoSchema` and `ModelInfoImpl` (`src/models/types.ts`, `info.ts`) -/

/-- A validated catalog entry (`ModelInfo`). -/
structure ModelInfo where
  id : String
  object : String
  created : Option Int
  owned_by : Option String
deriving DecidableEq, Repr

/-- `z.string()`: present and a string (the empty string is a string). -/
def decodeStr : Option JValue → Option String
  | some (.str s) => some s
  | _ => none

/-- `z.string().default(d)`: absent yields the default; present must be a
string. -/
def decodeStrDefault (d : String) : Option JValue → Option String
  | none => some d
  | some (.str s) => some s
  | some _ => none

/-- `z.string().optional()`. -/
def decodeOptStr : Option JValue → Option (Option String)
  | none => some none
  | some (.str s) => some (some s)
  | some _ => none

/-- `z.number().optional()`. -/
def decodeOptNum : Option JValue → Option (Option Int)
  | none => some none
  | some (.num n) => some (some n)
  | some _ => none

/-- `ModelInfoSchema.safeParse`: requires `id` present and a string;
`object` defaults to `"model"`; `created` and `owned_by` optional; a
non-object input fails.  This is also the `ModelInfoImpl` constructor
check: on failure it throws and no partial object is built. -/
def modelInfoSafeParse (v : JValue) : Option ModelInfo :=
  match v with
  | .obj fs => do
    let id ← decodeStr (jsLookup fs "id")
    let object ← decodeStrDefault "model" (jsLookup fs "object")
    let created ← decodeOptNum (jsLookup fs "created")
    let owned_by ← decodeOptStr (jsLookup fs "owned_by")
    some ⟨id, object, created, owned_by⟩
  | _ => none

/-- C8 (counterexample): the claim fails as stated.  `ModelInfoSchema`
uses plain `z.string()` for `id` with no non-emptiness refinement, so a
raw entry with an empty-string `id` passes validation and an entry with
`id = ""` is constructed. -/
theorem modelInfoSafeParse_accepts_empty_id :
    modelInfoSafeParse (.obj [("id", .str "")])
      = some ⟨"", "model", none, none⟩ := by
  decide

/-- C8 (amended): entry validation fails (and no partial entry is
constructed, the parse returning `none`) whenever the input is not an
object or its `id` field is absent or is not a string; the empty string
is accepted as an `id`. -/
theorem modelInfoSafeParse_requires_string_id (v : JValue) (fs : List (String × JValue)) :
    ((∀ s, jsLookup fs "id" ≠ some (JValue.str s)) → modelInfoSafeParse (.obj fs) = none)
    ∧ ((∀ gs, v ≠ .obj gs) → modelInfoSafeParse v = none) := by
  constructor
  · intro h
    simp only [modelInfoSafeParse]
    rcases hid : jsLookup fs "id" with _ | w
    · rfl
    · rcases w with s | n | b | _ | es | gs
      · exact absurd hid (h s)
      all_goals rfl
  · intro h
    rcases v with s | n | b | _ | es | gs
    all_goals first
      | rfl
      | exact absurd rfl (h gs)

/-- C8 (witness): the amended theorem applied to a raw entry whose `id` is
the boolean `true` and to the non-object raw value `null`. -/
theorem modelInfoSafeParse_requires_string_id_example :
    modelInfoSafeParse (.obj [("id", .bool true)]) = none
    ∧ modelInfoSafeParse .null = none := by
  have h := modelInfoSafeParse_requires_string_id .null [("id", .bool true)]
  refine ⟨h.1 ?_, h.2 ?_⟩
  · intro s hs
    have hl : jsLookup [("id", JValue.bool true)] "id" = some (.bool true) := rfl
    rw [hl] at hs
    cases hs
  · intro gs hgs
    cases hgs

/-! ## `AppConfigSchema` and `ConfigManager` (`src/config/types.ts`, `manager.ts`) -/

/-- A validated settings object (`AppConfig`). -/
structure AppConfig where
  apiKey : String
  baseUrl : String
  anthropicBaseUrl : String
  modelsApiUrl : String
  cacheDurationHours : Int
  selectedModel : String
  firstRunCompleted : Bool
  autoUpdateCheck : Bool
  lastUpdateCheck : String
deriving DecidableEq, Repr

/-- The schema defaults (`AppConfigSchema.parse({})`). -/
def defaultConfig : AppConfig :=
  { apiKey := ""
    baseUrl := "https://api.synthetic.new"
    anthropicBaseUrl := "https://api.synthetic.new/anthropic"
    modelsApiUrl := "https://api.synthetic.new/openai/v1/models"
    cacheDurationHours := 24
    selectedModel := ""
    firstRunCompleted := false
    autoUpdateCheck := true
    lastUpdateCheck := "" }

/-- `z.boolean().default(d)`. -/
def decodeBoolDefault (d : Bool) : Option JValue → Option Bool
  | none => some d
  | some (.bool b) => some b
  | some _ => none

/-- `z.number().int().min(1).max(168).default(24)` for `cacheDurationHours`
(numbers are modelled as integers, so `.int()` holds by representation). -/
def decodeDuration : Option JValue → Option Int
  | none => some 24
  | some (.num n) => if 1 ≤ n ∧ n ≤ 168 then some n else none
  | some _ => none

/-- `AppConfigSchema.safeParse`: a non-object input fails; each field is
defaulted when absent and type-checked (plus the duration range) when
present; unknown keys are ignored. -/
def appConfigSafeParse (v : JValue) : Option AppConfig :=
  match v with
  | .obj fs => do
    let apiKey ← decodeStrDefault "" (jsLookup fs "apiKey")
    let baseUrl ← decodeStrDefault "https://api.synthetic.new" (jsLookup fs "baseUrl")
    let anthropicBaseUrl ← decodeStrDefault "https://api.synthetic.new/anthropic"
      (jsLookup fs "anthropicBaseUrl")
    let modelsApiUrl ← decodeStrDefault "https://api.synthetic.new/openai/v1/models"
      (jsLookup fs "modelsApiUrl")
    let cacheDurationHours ← decodeDuration (jsLookup fs "cacheDurationHours")
    let selectedModel ← decodeStrDefault "" (jsLookup fs "selectedModel")
    let firstRunCompleted ← decodeBoolDefault false (jsLookup fs "firstRunCompleted")
    let autoUpdateCheck ← decodeBoolDefault true (jsLookup fs "autoUpdateCheck")
    let lastUpdateCheck ← decodeStrDefault "" (jsLookup fs "lastUpdateCheck")
    some ⟨apiKey, baseUrl, anthropicBaseUrl, modelsApiUrl, cacheDurationHours,
      selectedModel, firstRunCompleted, autoUpdateCheck, lastUpdateCheck⟩
  | _ => none

/-- `JSON.stringify` of a validated config (all nine fields, in schema
order). -/
def appConfigToJValue (c : AppConfig) : JValue :=
  .obj [("apiKey", .str c.apiKey), ("baseUrl", .str c.baseUrl),
    ("anthropicBaseUrl", .str c.anthropicBaseUrl),
    ("modelsApiUrl", .str c.modelsApiUrl),
    ("cacheDurationHours", .num c.cacheDurationHours),
    ("selectedModel", .str c.selectedModel),
    ("firstRunCompleted", .bool c.firstRunCompleted),
    ("autoUpdateCheck", .bool c.autoUpdateCheck),
    ("lastUpdateCheck", .str c.lastUpdateCheck)]

/-- The settings file as `loadConfig` observes it: absent, present with
text `JSON.parse` rejects, or present and parsed to a value.
`JSON.parse` is deterministic, so re-reading the same file re-yields the
same outcome. -/
inductive ConfigFile where
  | absent
  | unparsable (text : String)
  | parsed (v : JValue)

/-- `ConfigManager.loadConfig`.  Absent file: defaults.  Unparsable file:
the first `JSON.parse` throws, and the recovery in the catch block
re-reads and re-parses the same text, throws again, and falls back to
defaults.  Parsed file: full schema validation; on failure the in-try
fallback keeps `configData.firstRunCompleted || false` and re-validates
(property access on `null` throws into the catch block, whose re-parse
then re-throws on the same `null`, yielding defaults). -/
def loadConfig : ConfigFile → AppConfig
  | .absent => defaultConfig
  | .unparsable _ => defaultConfig
  | .parsed v =>
    match appConfigSafeParse v with
    | some cfg => cfg
    | none =>
      match jsGetProp v "firstRunCompleted" with
      | .threw => defaultConfig
      | .value frc =>
        let preserved : JValue :=
          match frc with
          | some x => if jsTruthy x then x else .bool false
          | none => .bool false
        match preserved with
        | .bool b => { defaultConfig with firstRunCompleted := b }
        | _ => defaultConfig

/-- `ConfigManager` state: the persisted file and the lazily loaded
in-memory `_config`. -/
structure CMState where
  file : ConfigFile
  mem : Option AppConfig

/-- The `config` getter: load on first touch, then the cached value. -/
def configGet (s : CMState) : AppConfig × CMState :=
  match s.mem with
  | some c => (c, s)
  | none =>
    let c := loadConfig s.file
    (c, { s with mem := some c })

/-- A `Partial<AppConfig>` update object. -/
structure ConfigUpd where
  apiKey : Option String := none
  baseUrl : Option String := none
  anthropicBaseUrl : Option String := none
  modelsApiUrl : Option String := none
  cacheDurationHours : Option Int := none
  selectedModel : Option String := none
  firstRunCompleted : Option Bool := none
  autoUpdateCheck : Option Bool := none
  lastUpdateCheck : Option String := none

/-- The spread `{ ...currentData, ...updates }`. -/
def applyUpd (c : AppConfig) (u : ConfigUpd) : AppConfig :=
  { apiKey := u.apiKey.getD c.apiKey
    baseUrl := u.baseUrl.getD c.baseUrl
    anthropicBaseUrl := u.anthropicBaseUrl.getD c.anthropicBaseUrl
    modelsApiUrl := u.modelsApiUrl.getD c.modelsApiUrl
    cacheDurationHours := u.cacheDurationHours.getD c.cacheDurationHours
    selectedModel := u.selectedModel.getD c.selectedModel
    firstRunCompleted := u.firstRunCompleted.getD c.firstRunCompleted
    autoUpdateCheck := u.autoUpdateCheck.getD c.autoUpdateCheck
    lastUpdateCheck := u.lastUpdateCheck.getD c.lastUpdateCheck }

/-- `ConfigValidationError` (write failures are not modelled: the
claims under proof concern the validation path). -/
inductive CfgError where
  | validation
deriving DecidableEq, Repr

/-- `ConfigManager.updateConfig`: merge the partial update over the
current config, validate the merged object against the full schema, and
only on success write the file and replace `_config`
(via `saveConfig(result.data)`). -/
def updateConfig (s : CMState) (u : ConfigUpd) : Except CfgError Bool × CMState :=
  let (cur, s₁) := configGet s
  let merged := applyUpd cur u
  match appConfigSafeParse (appConfigToJValue merged) with
  | none => (.error .validation, s₁)
  | some cfg => (.ok true, { file := .parsed (appConfigToJValue cfg), mem := some cfg })

/-- `ConfigManager.setCacheDuration`: `updateConfig` with the one field,
catching `ConfigValidationError` as `false`. -/
def setCacheDuration (s : CMState) (hours : Int) : Bool × CMState :=
  match updateConfig s { cacheDurationHours := some hours } with
  | (.error .validation, s') => (false, s')
  | (.ok b, s') => (b, s')

/-- Validating the JSON form of a typed config succeeds exactly when its
duration is in range, and then returns the same config. -/
theorem appConfigSafeParse_toJValue (c : AppConfig) :
    appConfigSafeParse (appConfigToJValue c)
      = if 1 ≤ c.cacheDurationHours ∧ c.cacheDurationHours ≤ 168 then some c
        else none := by
  by_cases h : 1 ≤ c.cacheDurationHours ∧ c.cacheDurationHours ≤ 168 <;>
    simp [appConfigSafeParse, appConfigToJValue, jsLookup, decodeStrDefault,
      decodeDuration, decodeBoolDefault, decodeStr, h]

/-- C1: `loadConfig` evaluated at the failing input.  The settings file
content is invalid JSON (a trailing comma) that contains the literal,
independently parseable substring `"firstRunCompleted":true`, yet
`load()` returns the plain defaults with `firstRunCompleted = false`:
the catch-block recovery re-parses the same unparsable text and throws
again, so the flag is never recovered from an unparsable file, contrary
to the claim and Scenario E. -/
theorem loadConfig_unparsable_cannot_recover_flag :
    "\x7b\"firstRunCompleted\":true,\x7d"
      = "\x7b" ++ "\"firstRunCompleted\":true" ++ ",\x7d"
    ∧ loadConfig (.unparsable "\x7b\"firstRunCompleted\":true,\x7d") = defaultConfig
    ∧ (loadConfig (.unparsable "\x7b\"firstRunCompleted\":true,\x7d")).firstRunCompleted
        = false := ⟨rfl, rfl, rfl⟩

/-- C4: updating `cacheDurationHours` to `0` or `169` fails with
`ValidationError` and performs no write — the persisted file and the
observable settings (in particular `cacheDurationHours`) are unchanged —
while updating it to `1` or to `168` succeeds and stores the value. -/
theorem updateConfig_cacheDuration_bounds (s : CMState) :
    ((updateConfig s { cacheDurationHours := some 0 }).1 = .error .validation
      ∧ ((updateConfig s { cacheDurationHours := some 0 }).2).file = s.file
      ∧ (configGet ((updateConfig s { cacheDurationHours := some 0 }).2)).1
          = (configGet s).1)
    ∧ ((updateConfig s { cacheDurationHours := some 169 }).1 = .error .validation
      ∧ ((updateConfig s { cacheDurationHours := some 169 }).2).file = s.file
      ∧ (configGet ((updateConfig s { cacheDurationHours := some 169 }).2)).1
          = (configGet s).1)
    ∧ ((updateConfig s { cacheDurationHours := some 1 }).1 = .ok true
      ∧ (configGet ((updateConfig s { cacheDurationHours := some 1 }).2)).1.cacheDurationHours
          = 1)
    ∧ ((updateConfig s { cacheDurationHours := some 168 }).1 = .ok true
      ∧ (configGet ((updateConfig s { cacheDurationHours := some 168 }).2)).1.cacheDurationHours
          = 168) := by
  cases hm : s.mem with
  | some c =>
    simp [updateConfig, configGet, hm, appConfigSafeParse_toJValue, applyUpd]
  | none =>
    simp [updateConfig, configGet, hm, appConfigSafeParse_toJValue, applyUpd]

/-! ## `ModelCache` (`src/models/cache.ts`) -/

/-- The cache file's bytes, as `JSON.parse` sees them. -/
inductive CacheContent where
  | unparsable
  | parsed (v : JValue)

/-- An existing cache file: its modification time and content. -/
structure CacheFile where
  mtimeMs : Int
  content : CacheContent

/-- `cacheDurationHours * 60 * 60 * 1000`. -/
def hoursToMs (h : Int) : Int := h * 60 * 60 * 1000

/-- `ModelCache.isValid`: the file exists and
`now - mtime < cacheDurationMs`; a stat failure (missing file) is
`false`. -/
def cacheIsValid (now durationMs : Int) (file : Option CacheFile) : Bool :=
  match file with
  | none => false
  | some f => decide (now - f.mtimeMs < durationMs)

/-- `ModelInfoImpl.toJSON`, then `JSON.stringify`: `undefined` optional
fields are omitted from the serialized object. -/
def modelToJSON (m : ModelInfo) : JValue :=
  .obj ([("id", JValue.str m.id), ("object", JValue.str m.object)]
    ++ (match m.created with
        | some n => [("created", JValue.num n)]
        | none => [])
    ++ (match m.owned_by with
        | some s => [("owned_by", JValue.str s)]
        | none => []))

/-- The body of `ModelCache.load`'s try block: `cacheData.models || []`
mapped through the `ModelInfoImpl` constructor; any throw (unparsable
file, property access on `null`, a non-array `models`, or one invalid
entry) is caught and degrades to the empty sequence. -/
def cacheParseModels (c : CacheContent) : List ModelInfo :=
  match c with
  | .unparsable => []
  | .parsed v =>
    match jsGetProp v "models" with
    | .threw => []
    | .value mv =>
      let arr : JValue :=
        match mv with
        | some x => if jsTruthy x then x else .arr []
        | none => .arr []
      match arr with
      | .arr elems =>
        match elems.mapM modelInfoSafeParse with
        | some ms => ms
        | none => []
      | _ => []

/-- `ModelCache.load`: empty when the cache is not valid, else the parsed
entries. -/
def cacheLoad (now durationMs : Int) (file : Option CacheFile) : List ModelInfo :=
  if cacheIsValid now durationMs file then
    match file with
    | some f => cacheParseModels f.content
    | none => []
  else []

/-- `ModelCache.save`: writes the envelope
`\x7b models, timestamp, count: models.length \x7d`; the file's
modification time becomes the write instant. -/
def cacheSave (now : Int) (nowIso : String) (models : List ModelInfo) : CacheFile :=
  { mtimeMs := now
    content := .parsed (.obj [("models", .arr (models.map modelToJSON)),
      ("timestamp", .str nowIso), ("count", .num models.length)]) }

/-- The `count` field of a written cache envelope. -/
def envelopeCount : Option CacheFile → Option JValue
  | some f =>
    match f.content with
    | .parsed (.obj fs) => jsLookup fs "count"
    | _ => none
  | none => none

/-! ## `ModelManager.fetchModels` / `fetchFromApi` (`src/models/manager.ts`) -/

/-- The manager's configuration and environment at one `fetchModels`
call: the API key, the cache file, the clock (in ms, plus its ISO
rendering used for the envelope's informational timestamp), and the
cache TTL in ms. -/
structure ModelManagerState where
  apiKey : String
  cacheFile : Option CacheFile
  now : Int
  nowIso : String
  cacheDurationMs : Int

/-- Outcome of the HTTP collaborator: an axios/API failure (an `ApiError`
is thrown), or a 200 response whose `response.data.data || []` is the
given list of raw entries. -/
inductive ApiOutcome where
  | failure
  | success (raws : List JValue)

/-- `ModelManager.fetchFromApi`: each raw entry is validated through the
`ModelInfoImpl` constructor independently; an entry that throws is
skipped with a warning, never aborting the batch. -/
def fetchFromApi : ApiOutcome → Except Unit (List ModelInfo)
  | .failure => .error ()
  | .success raws => .ok (raws.filterMap modelInfoSafeParse)

/-- Result of one `fetchModels` call: the returned (or thrown) value, the
post-call state, and whether the remote fetch was attempted. -/
structure FetchOut where
  result : Except Unit (List ModelInfo)
  state : ModelManagerState
  fetcherInvoked : Bool

/-- `ModelManager.fetchModels`: serve a valid cache unless
`forceRefresh`; without an API key return the empty sequence; otherwise
fetch, and persist the result through the cache only when it is
non-empty. -/
def fetchModels (st : ModelManagerState) (forceRefresh : Bool)
    (resp : ApiOutcome) : FetchOut :=
  if !forceRefresh && cacheIsValid st.now st.cacheDurationMs st.cacheFile then
    { result := .ok (cacheLoad st.now st.cacheDurationMs st.cacheFile)
      state := st, fetcherInvoked := false }
  else if st.apiKey = "" then
    { result := .ok [], state := st, fetcherInvoked := false }
  else
    match fetchFromApi resp with
    | .error e => { result := .error e, state := st, fetcherInvoked := true }
    | .ok models =>
      if models.length > 0 then
        { result := .ok models
          state := { st with cacheFile := some (cacheSave st.now st.nowIso models) }
          fetcherInvoked := true }
      else
        { result := .ok models, state := st, fetcherInvoked := true }

/-- A valid raw catalog entry, as in Scenario D. -/
def rawGpt4 : JValue := .obj [("id", .str "openai:gpt-4")]

/-- A manager whose cache file is 25 hours old with a 24-hour TTL and
whose configured API key is empty. -/
def staleKeylessState : ModelManagerState :=
  { apiKey := ""
    cacheFile := some { mtimeMs := 0, content := .parsed (.obj [("models", .arr [])]) }
    now := hoursToMs 25
    nowIso := "1970-01-02T01:00:00.000Z"
    cacheDurationMs := hoursToMs 24 }

/-- C5 (counterexample): the claim fails as stated.  With a 25-hour-old
cache file and `cacheDurationHours = 24`, `isValid()` is indeed false,
but when the configured API key is empty `fetch(false, fetcher)` returns
the empty sequence without invoking the fetcher — the key check sits
after the cache check, so "invokes the fetcher" does not hold for every
such state. -/
theorem fetchModels_stale_cache_without_key_skips_fetcher :
    cacheIsValid staleKeylessState.now staleKeylessState.cacheDurationMs
      staleKeylessState.cacheFile = false
    ∧ (fetchModels staleKeylessState false (.success [rawGpt4])).fetcherInvoked = false
    ∧ (fetchModels staleKeylessState false (.success [rawGpt4])).result = .ok [] := by
  refine ⟨by decide, rfl, rfl⟩

/-- C5 (amended): if `forceRefresh` is false and the cache file exists
with age strictly below the TTL, `fetch` returns the cached sequence
without invoking the fetcher and without changing any state; if the
cache file's age is at least the TTL, `isValid()` is false and — when an
API key is configured — `fetch(false, fetcher)` invokes the fetcher
rather than returning stale entries. -/
theorem fetchModels_ttl_gate (st : ModelManagerState) (f : CacheFile)
    (resp : ApiOutcome) (hf : st.cacheFile = some f) :
    (st.now - f.mtimeMs < st.cacheDurationMs →
      cacheIsValid st.now st.cacheDurationMs st.cacheFile = true
      ∧ fetchModels st false resp
          = { result := .ok (cacheLoad st.now st.cacheDurationMs st.cacheFile)
              state := st, fetcherInvoked := false })
    ∧ (st.cacheDurationMs ≤ st.now - f.mtimeMs →
      cacheIsValid st.now st.cacheDurationMs st.cacheFile = false
      ∧ (st.apiKey ≠ "" → (fetchModels st false resp).fetcherInvoked = true)) := by
  constructor
  · intro h
    have hv : cacheIsValid st.now st.cacheDurationMs st.cacheFile = true := by
      simp [cacheIsValid, hf, h]
    exact ⟨hv, by simp [fetchModels, hv]⟩
  · intro h
    have hv : cacheIsValid st.now st.cacheDurationMs st.cacheFile = false := by
      simp only [cacheIsValid, hf, decide_eq_false_iff_not]
      omega
    refine ⟨hv, fun hkey => ?_⟩
    rcases resp with _ | raws
    · simp [fetchModels, hv, hkey, fetchFromApi]
    · simp only [fetchModels, hv, Bool.and_false, Bool.not_false, Bool.true_and,
        if_false, fetchFromApi]
      simp [hkey]
      split <;> rfl

/-- C5 (witness): the amended theorem applied to a state with a
25-hour-old cache, a 24-hour TTL and a configured key. -/
theorem fetchModels_ttl_gate_example :
    cacheIsValid (hoursToMs 25) (hoursToMs 24)
      (some { mtimeMs := 0, content := .parsed (.obj [("models", .arr [])]) }) = false
    ∧ (fetchModels
        { apiKey := "k"
          cacheFile := some { mtimeMs := 0, content := .parsed (.obj [("models", .arr [])]) }
          now := hoursToMs 25
          nowIso := "1970-01-02T01:00:00.000Z"
          cacheDurationMs := hoursToMs 24 } false (.success [rawGpt4])).fetcherInvoked
      = true := by
  have h := fetchModels_ttl_gate
    { apiKey := "k"
      cacheFile := some { mtimeMs := 0, content := .parsed (.obj [("models", .arr [])]) }
      now := hoursToMs 25
      nowIso := "1970-01-02T01:00:00.000Z"
      cacheDurationMs := hoursToMs 24 }
    { mtimeMs := 0, content := .parsed (.obj [("models", .arr [])]) }
    (.success [rawGpt4]) rfl
  have h2 := h.2 (by decide)
  exact ⟨h2.1, h2.2 (by decide)⟩

/-- C6: on a fetch that reaches the remote collaborator, an empty
validated result is returned as-is and the on-disk cache file is left
exactly as it was, while a non-empty validated result is persisted
through the cache. -/
theorem fetchModels_empty_preserves_cache (st : ModelManagerState)
    (raws : List JValue) (fr : Bool)
    (hpath : fr = true ∨ cacheIsValid st.now st.cacheDurationMs st.cacheFile = false)
    (hkey : st.apiKey ≠ "") :
    (raws.filterMap modelInfoSafeParse = [] →
      (fetchModels st fr (.success raws)).result = .ok []
      ∧ (fetchModels st fr (.success raws)).state.cacheFile = st.cacheFile)
    ∧ (raws.filterMap modelInfoSafeParse ≠ [] →
      (fetchModels st fr (.success raws)).result = .ok (raws.filterMap modelInfoSafeParse)
      ∧ (fetchModels st fr (.success raws)).state.cacheFile
          = some (cacheSave st.now st.nowIso (raws.filterMap modelInfoSafeParse))) := by
  have hgate : (!fr && cacheIsValid st.now st.cacheDurationMs st.cacheFile) = false := by
    rcases hpath with h | h <;> simp [h]
  constructor
  · intro h
    simp [fetchModels, hgate, hkey, fetchFromApi, h]
  · intro h
    have hlen : 0 < (raws.filterMap modelInfoSafeParse).length := List.length_pos.mpr h
    simp [fetchModels, hgate, hkey, fetchFromApi, hlen]

/-- C6 (witness): the theorem applied, with a configured key and no
cache file, to an all-malformed batch (validated result empty, cache
untouched) and to Scenario D's batch (persisted through the cache). -/
theorem fetchModels_empty_preserves_cache_example :
    (fetchModels
      { apiKey := "k", cacheFile := none, now := 0, nowIso := "", cacheDurationMs := hoursToMs 24 }
      false (.success [.obj []])).state.cacheFile = none
    ∧ (fetchModels
      { apiKey := "k", cacheFile := none, now := 0, nowIso := "", cacheDurationMs := hoursToMs 24 }
      false (.success [rawGpt4])).state.cacheFile
        = some (cacheSave 0 "" [⟨"openai:gpt-4", "model", none, none⟩]) := by
  have h1 := fetchModels_empty_preserves_cache
    { apiKey := "k", cacheFile := none, now := 0, nowIso := "", cacheDurationMs := hoursToMs 24 }
    [.obj []] false (Or.inr rfl) (by decide)
  have h2 := fetchModels_empty_preserves_cache
    { apiKey := "k", cacheFile := none, now := 0, nowIso := "", cacheDurationMs := hoursToMs 24 }
    [rawGpt4] false (Or.inr rfl) (by decide)
  exact ⟨(h1.1 (by decide)).2, (h2.2 (by decide)).2⟩

/-- C7: raw entries are validated independently — removing one malformed
entry from anywhere in the batch does not change the outcome, the fetch
returns exactly the valid entries, and a non-empty result's cache
envelope is written with `count` equal to the number of entries
written. -/
theorem fetchModels_isolates_invalid_entries (st : ModelManagerState)
    (raws₁ raws₂ : List JValue) (bad : JValue) (fr : Bool)
    (hpath : fr = true ∨ cacheIsValid st.now st.cacheDurationMs st.cacheFile = false)
    (hkey : st.apiKey ≠ "") (hbad : modelInfoSafeParse bad = none) :
    fetchModels st fr (.success (raws₁ ++ bad :: raws₂))
      = fetchModels st fr (.success (raws₁ ++ raws₂))
    ∧ (fetchModels st fr (.success (raws₁ ++ raws₂))).result
        = .ok ((raws₁ ++ raws₂).filterMap modelInfoSafeParse)
    ∧ ((raws₁ ++ raws₂).filterMap modelInfoSafeParse ≠ [] →
        envelopeCount (fetchModels st fr (.success (raws₁ ++ raws₂))).state.cacheFile
          = some (.num ((raws₁ ++ raws₂).filterMap modelInfoSafeParse).length)) := by
  have hgate : (!fr && cacheIsValid st.now st.cacheDurationMs st.cacheFile) = false := by
    rcases hpath with h | h <;> simp [h]
  have hdrop : (raws₁ ++ bad :: raws₂).filterMap modelInfoSafeParse
      = (raws₁ ++ raws₂).filterMap modelInfoSafeParse := by
    simp [List.filterMap_append, List.filterMap_cons, hbad]
  refine ⟨by simp [fetchModels, fetchFromApi, hdrop], ?_, ?_⟩
  · simp only [fetchModels, hgate, if_false, fetchFromApi]
    simp [hkey]
    split <;> rfl
  · intro h
    have hlen : 0 < ((raws₁ ++ raws₂).filterMap modelInfoSafeParse).length :=
      List.length_pos.mpr h
    have hor : 0 < (raws₁.filterMap modelInfoSafeParse).length
        ∨ 0 < (raws₂.filterMap modelInfoSafeParse).length := by
      rw [List.filterMap_append, List.length_append] at hlen
      omega
    simp [fetchModels, hgate, hkey, fetchFromApi, hor, envelopeCount, cacheSave, jsLookup]

/-- C7 (witness, Scenario D): one valid raw entry `id:"openai:gpt-4"` and
one malformed entry (missing `id`) yield exactly the valid entry, and
the cache envelope is written with `count: 1`. -/
theorem fetchModels_isolates_invalid_entries_example :
    (fetchModels
      { apiKey := "k", cacheFile := none, now := 0, nowIso := "", cacheDurationMs := hoursToMs 24 }
      false (.success [rawGpt4, .obj []])).result
      = .ok [⟨"openai:gpt-4", "model", none, none⟩]
    ∧ envelopeCount (fetchModels
      { apiKey := "k", cacheFile := none, now := 0, nowIso := "", cacheDurationMs := hoursToMs 24 }
      false (.success [rawGpt4, .obj []])).state.cacheFile = some (.num 1) := by
  have h := fetchModels_isolates_invalid_entries
    { apiKey := "k", cacheFile := none, now := 0, nowIso := "", cacheDurationMs := hoursToMs 24 }
    [rawGpt4] [] (.obj []) false (Or.inr rfl) (by decide) rfl
  have hl : ([rawGpt4, JValue.obj []] : List JValue) = [rawGpt4] ++ JValue.obj [] :: [] := rfl
  constructor
  · rw [hl, h.1, h.2.1]
    rfl
  · rw [hl, h.1]
    have := h.2.2 (by decide)
    rw [this]
    rfl

/-- C10: with an empty configured API key and an invalid (or
force-refreshed) cache, `fetchModels` returns the empty sequence without
invoking the fetcher, without raising, and without touching any state —
in particular the cache file is unchanged. -/
theorem fetchModels_no_api_key (st : ModelManagerState) (resp : ApiOutcome)
    (fr : Bool) (hkey : st.apiKey = "")
    (hpath : fr = true ∨ cacheIsValid st.now st.cacheDurationMs st.cacheFile = false) :
    fetchModels st fr resp
      = { result := .ok [], state := st, fetcherInvoked := false } := by
  have hgate : (!fr && cacheIsValid st.now st.cacheDurationMs st.cacheFile) = false := by
    rcases hpath with h | h <;> simp [h]
  simp [fetchModels, hgate, hkey]

/-- C10 (witness): the theorem applied to the keyless stale-cache state
with a non-empty remote response available. -/
theorem fetchModels_no_api_key_example :
    fetchModels staleKeylessState false (.success [rawGpt4])
      = { result := .ok [], state := staleKeylessState, fetcherInvoked := false } :=
  fetchModels_no_api_key staleKeylessState (.success [rawGpt4]) false rfl
    (Or.inr (by decide))

/-! ## `ModelManager.getModels` and the comparator

`getModels` sorts with `(a, b) => a.id.localeCompare(b.id)`.
`localeCompare` with no arguments is the host's default-locale ICU
collation, not a code-point comparison.  It is modelled here for the
ASCII strings this repository compares by its collation sort key: a
primary pass over the characters compared case-insensitively, a level
separator, then a tertiary pass that orders lower case before upper
case.  `Array.prototype.sort` is a stable sort consistent with the
comparator, modelled by insertion sort. -/

/-- Boolean lexicographic order on weight lists. -/
def lexLeNat : List Nat → List Nat → Bool
  | [], _ => true
  | _ :: _, [] => false
  | a :: as, b :: bs => if a < b then true else if b < a then false else lexLeNat as bs

/-- Primary collation weight: the character, case-folded (shifted so
that every primary weight exceeds the level separator `0`). -/
def collationPrimary (c : Char) : Nat := c.toLower.toNat + 1

/-- Tertiary collation weight: lower case sorts before upper case. -/
def collationTertiary (c : Char) : Nat := if c.isUpper then 2 else 1

/-- The ICU-style sort key of a string: primary weights, the level
separator, then tertiary weights. -/
def collationKey (s : String) : List Nat :=
  s.data.map collationPrimary ++ 0 :: s.data.map collationTertiary

/-- `a.localeCompare(b) <= 0`, via the collation sort keys. -/
def localeLe (a b : String) : Bool := lexLeNat (collationKey a) (collationKey b)

/-- The comparator `(a, b) => a.id.localeCompare(b.id)` as an order on
entries. -/
def modelLe (a b : ModelInfo) : Prop := localeLe a.id b.id = true

instance : DecidableRel modelLe := fun a b =>
  inferInstanceAs (Decidable (localeLe a.id b.id = true))

/-- Ordinal (code-point lexicographic) string order, the comparison the
claim names. -/
def ordinalLe (a b : String) : Bool :=
  lexLeNat (a.data.map Char.toNat) (b.data.map Char.toNat)

/-- `ModelManager.getModels`: `[...models].sort((a, b) => a.id.localeCompare(b.id))` —
a defensive copy sorted stably by the comparator. -/
def getModels (models : List ModelInfo) : List ModelInfo :=
  List.insertionSort modelLe models

theorem lexLeNat_total : ∀ as bs : List Nat, lexLeNat as bs = true ∨ lexLeNat bs as = true
  | [], _ => Or.inl rfl
  | _ :: _, [] => Or.inr rfl
  | a :: as, b :: bs => by
    by_cases hab : a < b
    · exact Or.inl (by simp [lexLeNat, hab])
    · by_cases hba : b < a
      · exact Or.inr (by simp [lexLeNat, hba])
      · rcases lexLeNat_total as bs with h | h
        · exact Or.inl (by simp [lexLeNat, hab, hba, h])
        · exact Or.inr (by simp [lexLeNat, hab, hba, h])

theorem lexLeNat_trans : ∀ as bs cs : List Nat,
    lexLeNat as bs = true → lexLeNat bs cs = true → lexLeNat as cs = true
  | [], _, _, _, _ => rfl
  | _ :: _, [], _, hab, _ => by simp [lexLeNat] at hab
  | _ :: _, _ :: _, [], _, hbc => by simp [lexLeNat] at hbc
  | a :: as, b :: bs, c :: cs, hab, hbc => by
    simp only [lexLeNat] at hab hbc ⊢
    by_cases h1 : a < b
    · by_cases h2 : b < c
      · rw [if_pos (Nat.lt_trans h1 h2)]
      · by_cases h3 : c < b
        · rw [if_neg h2, if_pos h3] at hbc
          exact absurd hbc (by simp)
        · rw [if_pos (show a < c by omega)]
    · by_cases h4 : b < a
      · rw [if_neg h1, if_pos h4] at hab
        exact absurd hab (by simp)
      · by_cases h2 : b < c
        · rw [if_pos (show a < c by omega)]
        · by_cases h3 : c < b
          · rw [if_neg h2, if_pos h3] at hbc
            exact absurd hbc (by simp)
          · rw [if_neg h1, if_neg h4] at hab
            rw [if_neg h2, if_neg h3] at hbc
            rw [if_neg (show ¬ a < c by omega), if_neg (show ¬ c < a by omega)]
            exact lexLeNat_trans as bs cs hab hbc

instance : IsTotal ModelInfo modelLe :=
  ⟨fun a b => lexLeNat_total (collationKey a.id) (collationKey b.id)⟩

instance : IsTrans ModelInfo modelLe :=
  ⟨fun a b c => lexLeNat_trans (collationKey a.id) (collationKey b.id) (collationKey c.id)⟩

/-- C9 (counterexample): the claim fails as stated.  `localeCompare`
orders `"a"` before `"B"` (case-insensitive primary pass), while the
ordinal (code-point) order puts `"B" (66)` before `"a" (97)`; on the
input `[\x7bid:"B"\x7d, \x7bid:"a"\x7d]` the returned sequence
`["a", "B"]` is not ordinal-sorted. -/
theorem getModels_not_ordinal_sorted :
    getModels [⟨"B", "model", none, none⟩, ⟨"a", "model", none, none⟩]
      = [⟨"a", "model", none, none⟩, ⟨"B", "model", none, none⟩]
    ∧ ordinalLe "a" "B" = false
    ∧ ¬ List.Sorted (fun x y : ModelInfo => ordinalLe x.id y.id = true)
        (getModels [⟨"B", "model", none, none⟩, ⟨"a", "model", none, none⟩]) := by
  refine ⟨by decide, by decide, ?_⟩
  intro h
  have h1 : getModels [⟨"B", "model", none, none⟩, ⟨"a", "model", none, none⟩]
      = [⟨"a", "model", none, none⟩, ⟨"B", "model", none, none⟩] := by decide
  rw [h1] at h
  have := List.rel_of_sorted_cons h _ (List.mem_cons_self _ _)
  exact absurd this (by decide)

/-- C9 (amended): `getModels` returns a new sequence holding exactly the
input's entries (a permutation — the input itself is untouched), sorted
by `id` under the host's locale collation order `modelLe`
(`localeCompare`), which is not the ordinal code-point order. -/
theorem getModels_sorted_perm (models : List ModelInfo) :
    (getModels models).Perm models ∧ List.Sorted modelLe (getModels models) :=
  ⟨List.perm_insertionSort modelLe models, List.sorted_insertionSort modelLe models⟩

end Synclaude
